import Mathlib

/-!
Shallow embedding of the analytic core of the repository
(src/utils/functions.py): the daily training-load calculation
`calculate_ctl_atl_tsb` (pandas code) and the critical-power fit
`fit_cp_w_prime` (scipy.stats.linregress).

Real numbers are modelled by `ℚ` (the quantities involved are exact
rationals; floating-point rounding is not modelled).  Calendar dates are
modelled by `ℤ` (day number); `pd.date_range(start, end)` with daily
frequency is the inclusive integer range.  A missing `TSS` value (pandas
`NaN` in the column) is modelled by `Option ℚ` with `none` for `NaN`.

Python exceptions are modelled by an error type; the functions return
`Except`.  The source defines no error classes of its own: the only
failures are the ones raised by pandas / numpy / scipy, namely
- `pd.date_range` on empty input: `ValueError` (start/end are `NaT`),
- `DataFrame.reindex` on a duplicate index: `ValueError`
  (cannot reindex from a duplicate axis),
- `scipy.stats.linregress`: `ValueError` on empty input and `ValueError`
  when all x values are identical and there is more than one point.
The specification additionally names `EmptyInputError`,
`InsufficientDataError` and `DegenerateFitError`; no such classes exist
in the source, but the type carries constructors for them so that the
specification claims about them can be stated (the embedded code never
produces them).
-/

instance {ε α} [DecidableEq ε] [DecidableEq α] : DecidableEq (Except ε α) := fun x y =>
  match x, y with
  | .ok a, .ok b =>
    if h : a = b then .isTrue (congrArg Except.ok h)
    else .isFalse (fun c => h (Except.ok.inj c))
  | .error a, .error b =>
    if h : a = b then .isTrue (congrArg Except.error h)
    else .isFalse (fun c => h (Except.error.inj c))
  | .ok _, .error _ => .isFalse (fun c => Except.noConfusion c)
  | .error _, .ok _ => .isFalse (fun c => Except.noConfusion c)

/-- A value of the `date` column of the caller's DataFrame: either a raw
(unparsed, e.g. ISO-string) date or an already parsed datetime.  Both
denote the calendar day `day`; `pd.to_datetime` maps both to the parsed
form.  The distinction is observable to the caller because line 60 of the
source, `df['date'] = pd.to_datetime(df['date'])`, writes the parsed
column back into the caller's frame in place. -/
inductive DateVal where
  | raw (day : ℤ)
  | dt (day : ℤ)
deriving DecidableEq

/-- The calendar day a date value denotes. -/
def DateVal.day : DateVal → ℤ
  | .raw d => d
  | .dt d => d

/-- The effect of `pd.to_datetime` on one date value. -/
def DateVal.parse : DateVal → DateVal
  | .raw d => .dt d
  | .dt d => .dt d

/-- Whether a date value is already a parsed datetime. -/
def DateVal.isParsed : DateVal → Bool
  | .raw _ => false
  | .dt _ => true

/-- One row of the input DataFrame of `calculate_ctl_atl_tsb`:
a `date` and a `TSS` value (`none` models a `NaN` stress value). -/
structure Obs where
  date : DateVal
  TSS : Option ℚ
deriving DecidableEq

/-- One row of the returned DataFrame: the day, the gap-filled `TSS`,
and the `ctl`, `atl`, `tsb` columns written by the forward pass. -/
structure DayRecord where
  date : ℤ
  TSS : ℚ
  ctl : ℚ
  atl : ℚ
  tsb : ℚ
deriving DecidableEq

/-- Python exceptions observable from the two core functions, plus the
specification's named error classes (which the source never defines nor
raises; they are present only so the spec's error claims can be stated). -/
inductive PyError where
  | valueErrorNaTDateRange
  | valueErrorDuplicateAxis
  | valueErrorIdenticalX
  | valueErrorEmptyInputs
  | emptyInputError
  | insufficientDataError
  | degenerateFitError
deriving DecidableEq

/-- Rows surviving `df.dropna(subset=['TSS'])`, reduced to the data the
rest of the calculation reads: `(day, stress)` pairs, in input order.
Dates are read through `pd.to_datetime`, i.e. by their denoted day.
(The subsequent `sort_values` is immaterial: the reindex step looks rows
up by date label, not by position, so the embedding keeps input order.) -/
def cleanRows (df : List Obs) : List (ℤ × ℚ) :=
  df.filterMap (fun r => r.TSS.map (fun s => (r.date.day, s)))

/-- The minimum of the `date` column (`df_clean['date'].min()`);
junk value on the empty list (pandas returns `NaT` there, and the
calculation then fails before using it). -/
def minDate : List (ℤ × ℚ) → ℤ
  | [] => 0
  | p :: ps => ps.foldl (fun a q => min a q.1) p.1

/-- The maximum of the `date` column (`df_clean['date'].max()`);
junk value on the empty list. -/
def maxDate : List (ℤ × ℚ) → ℤ
  | [] => 0
  | p :: ps => ps.foldl (fun a q => max a q.1) p.1

/-- The inclusive daily range `pd.date_range(start=lo, ...)` with `n`
days: `[lo, lo+1, ..., lo+n-1]`. -/
def dayRange (lo : ℤ) : ℕ → List ℤ
  | 0 => []
  | n + 1 => lo :: dayRange (lo + 1) n

/-- The `TSS` value of day `d` after `reindex` and
`df_clean['TSS'].fillna(0, inplace=True)`: the stress of the row labelled
`d` if one exists, else `0`.  (On a unique index, `reindex` selects the
row with the matching label.) -/
def lookupTSS (d : ℤ) : List (ℤ × ℚ) → ℚ
  | [] => 0
  | p :: ps => if p.1 = d then p.2 else lookupTSS d ps

/-- The forward pass of the source (lines 76-86): for each day in order,
`ctl = ctl + (tss - ctl) / 42`, `atl = atl + (tss - atl) / 7`, and the
day's record receives `(ctl, atl, ctl - atl)`. -/
def runDays (rows : List (ℤ × ℚ)) : List ℤ → ℚ → ℚ → List DayRecord
  | [], _, _ => []
  | d :: ds, ctl, atl =>
    let tss := lookupTSS d rows
    let ctl2 := ctl + (tss - ctl) / 42
    let atl2 := atl + (tss - atl) / 7
    ⟨d, tss, ctl2, atl2, ctl2 - atl2⟩ :: runDays rows ds ctl2 atl2

/-- Embedding of `calculate_ctl_atl_tsb` (source lines 47-88).
The cleaned rows are gap-filled over the inclusive day range between
their minimum and maximum date and the forward recursion is run with the
caller-supplied seeds (the source defaults both seeds to 0).
Failure modes, in the order the source hits them:
`pd.date_range` raises `ValueError` when the cleaned frame is empty
(min/max are `NaT`), and `reindex` raises `ValueError` when the cleaned
frame has duplicate date labels. -/
def calculate_ctl_atl_tsb (df : List Obs) (ctl_start atl_start : ℚ) :
    Except PyError (List DayRecord) :=
  let dfc := cleanRows df
  if dfc = [] then .error PyError.valueErrorNaTDateRange
  else
    let lo := minDate dfc
    let hi := maxDate dfc
    if (dfc.map Prod.fst).Nodup then
      .ok (runDays dfc (dayRange lo ((hi - lo).toNat + 1)) ctl_start atl_start)
    else .error PyError.valueErrorDuplicateAxis

/-- The caller's DataFrame as observable after a call to
`calculate_ctl_atl_tsb`: line 60 of the source,
`df['date'] = pd.to_datetime(df['date'])`, assigns the parsed date column
into the caller's frame in place; every later operation works on fresh
objects (`sort_values` rebinds, `dropna` and `copy` allocate), so the
date column is the only caller-visible write. -/
def callerFrameAfter (df : List Obs) : List Obs :=
  df.map (fun r => { r with date := r.date.parse })

/-- A call to `calculate_ctl_atl_tsb` as the caller sees it: the returned
value together with the caller's input frame after the call. -/
def calculate_ctl_atl_tsb_run (df : List Obs) (ctl_start atl_start : ℚ) :
    Except PyError (List DayRecord) × List Obs :=
  (calculate_ctl_atl_tsb df ctl_start atl_start, callerFrameAfter df)

/-- The result of `fit_cp_w_prime` when `linregress` returns finite
values.  The source returns `(CP, CP_err, W_prime, W_prime_err)` where
the two error fields are square roots of rational expressions; a square
root is not exactly representable in `ℚ`, so the embedding carries the
SQUARES of the two standard errors (`sqrt` is injective on nonnegative
rationals, so every claim about the standard errors - equality with the
textbook formulas, vanishing - is equivalent to the claim about these
squares). -/
structure FitVals where
  CP : ℚ
  CP_err_sq : ℚ
  W_prime : ℚ
  W_prime_err_sq : ℚ
deriving DecidableEq

/-- The minimum of a list (`np.amin`); junk value on the empty list,
which `linregress` rejects before using it. -/
def amin : List ℚ → ℚ
  | [] => 0
  | x :: xs => xs.foldl min x

/-- The maximum of a list (`np.amax`); junk value on the empty list. -/
def amax : List ℚ → ℚ
  | [] => 0
  | x :: xs => xs.foldl max x

/-- Mean of a list of rationals (`np.mean`). -/
def mean (l : List ℚ) : ℚ := l.sum / l.length

/-- Sum of squared deviations of the x components from their mean
(so that `np.cov(x, y, bias=1)` entries are these sums divided by n). -/
def Sxx (pts : List (ℚ × ℚ)) : ℚ :=
  (pts.map (fun p => (p.1 - mean (pts.map Prod.fst)) ^ 2)).sum

/-- Sum of products of deviations of x and y from their means. -/
def Sxy (pts : List (ℚ × ℚ)) : ℚ :=
  (pts.map (fun p =>
    (p.1 - mean (pts.map Prod.fst)) * (p.2 - mean (pts.map Prod.snd)))).sum

/-- Sum of squared deviations of the y components from their mean. -/
def Syy (pts : List (ℚ × ℚ)) : ℚ :=
  (pts.map (fun p => (p.2 - mean (pts.map Prod.snd)) ^ 2)).sum

/-- Embedding of `scipy.stats.linregress` on paired samples
`pts = [(x_0, y_0), ...]` (the source always calls it with two columns of
one DataFrame, so the paired form is general enough).  Following the
scipy implementation:
- empty input raises `ValueError` (inputs must not be empty);
- if all x values are identical and there is more than one point, it
  raises `ValueError` (cannot calculate a linear regression);
- `ssxm, ssxym, ssym` are the bias-1 covariances, `slope = ssxym / ssxm`,
  `intercept = ym - slope * xm`;
- with exactly 2 points both standard errors are set to `0.0`;
- otherwise `slope_stderr = sqrt((1 - r^2) * ssym / ssxm / (n - 2))` and
  `intercept_stderr = slope_stderr * sqrt(ssxm + xm^2)`, where `r^2` is
  `ssxym^2 / (ssxm * ssym)` guarded to `0` when the denominator vanishes
  and clipped to at most `1`.
A single point passes both guards with `ssxm = 0`, and numpy's `0.0/0.0`
then propagates `nan` into all four outputs; that result is modelled by
`.ok none`.  Returned error squares stand for the squares of the scipy
standard errors (see `FitVals`). -/
def linregress (pts : List (ℚ × ℚ)) : Except PyError (Option FitVals) :=
  if pts.isEmpty then .error PyError.valueErrorEmptyInputs
  else if amax (pts.map Prod.fst) = amin (pts.map Prod.fst) ∧ 1 < pts.length then
    .error PyError.valueErrorIdenticalX
  else
    let n : ℚ := pts.length
    let xm := mean (pts.map Prod.fst)
    let ym := mean (pts.map Prod.snd)
    let ssxm := Sxx pts / n
    let ssxym := Sxy pts / n
    let ssym := Syy pts / n
    if ssxm = 0 then .ok none
    else
      let slope := ssxym / ssxm
      let intercept := ym - slope * xm
      let rsq := if ssxm * ssym = 0 then 0 else min (ssxym ^ 2 / (ssxm * ssym)) 1
      if pts.length = 2 then .ok (some ⟨slope, 0, intercept, 0⟩)
      else
        let slope_stderr_sq := (1 - rsq) * ssym / ssxm / (n - 2)
        .ok (some ⟨slope, slope_stderr_sq, intercept,
                   slope_stderr_sq * (ssxm + xm ^ 2)⟩)

/-- Embedding of `fit_cp_w_prime` (source lines 126-150): regress
`y = power * time` against `x = time` with `linregress`; the slope is CP,
the intercept is W_prime.  The input profile rows are `(time, power)`
pairs. -/
def fit_cp_w_prime (df : List (ℚ × ℚ)) : Except PyError (Option FitVals) :=
  linregress (df.map (fun p => (p.1, p.2 * p.1)))

/-- A call to `fit_cp_w_prime` as the caller sees it: the returned value
together with the caller's input frame after the call (lines 140-150 of
the source only read `df`; `x` aliases a column and `y` is a freshly
allocated Series, and neither is written, so the input is unchanged). -/
def fit_cp_w_prime_run (df : List (ℚ × ℚ)) :
    Except PyError (Option FitVals) × List (ℚ × ℚ) :=
  (fit_cp_w_prime df, df)

/-- The ordinary-least-squares slope exactly as the specification words
it: `slope = (sum of (x - xbar) * (y - ybar)) / (sum of (x - xbar) ^ 2)`.
Spec-side definition, to be compared with the embedded code. -/
def specSlope (pts : List (ℚ × ℚ)) : ℚ := Sxy pts / Sxx pts

/-- The ordinary-least-squares intercept `ybar - slope * xbar`
(spec-side definition). -/
def specIntercept (pts : List (ℚ × ℚ)) : ℚ :=
  mean (pts.map Prod.snd) - specSlope pts * mean (pts.map Prod.fst)

/-- The residual sum of squares of the ordinary-least-squares fit
(spec-side definition). -/
def specSSR (pts : List (ℚ × ℚ)) : ℚ :=
  (pts.map (fun p => (p.2 - (specIntercept pts + specSlope pts * p.1)) ^ 2)).sum

/-- The square of the textbook standard error of the regression slope
with `n - 2` degrees of freedom: `SSR / ((n - 2) * Sxx)`
(spec-side definition). -/
def specSlopeErrSq (pts : List (ℚ × ℚ)) : ℚ :=
  specSSR pts / (((pts.length : ℚ) - 2) * Sxx pts)

/-- The square of the textbook standard error of the regression
intercept with `n - 2` degrees of freedom:
`(SSR / (n - 2)) * (1/n + xbar^2 / Sxx)` (spec-side definition). -/
def specInterceptErrSq (pts : List (ℚ × ℚ)) : ℚ :=
  (specSSR pts / ((pts.length : ℚ) - 2)) *
    (1 / (pts.length : ℚ) + mean (pts.map Prod.fst) ^ 2 / Sxx pts)

/-- Input family used by the continuation and constant-stress claims: one
observation per consecutive day starting at day `d`, with the listed
stress values, all dates already parsed and no stress missing. -/
def mkRows (d : ℤ) : List ℚ → List Obs
  | [] => []
  | s :: rest => ⟨.dt d, some s⟩ :: mkRows (d + 1) rest

/-- The cleaned-row image of `mkRows`: `(day, stress)` pairs on
consecutive days. -/
def mkPairs (d : ℤ) : List ℚ → List (ℤ × ℚ)
  | [] => []
  | s :: rest => (d, s) :: mkPairs (d + 1) rest

/-- Direct forward scan of the load recursion over a dense series of
stress values starting at day `d`: the value `calculate_ctl_atl_tsb`
produces on gap-free inputs. -/
def scanDays (d : ℤ) (S : List ℚ) (ctl atl : ℚ) : List DayRecord :=
  match S with
  | [] => []
  | s :: rest =>
    let ctl2 := ctl + (s - ctl) / 42
    let atl2 := atl + (s - atl) / 7
    ⟨d, s, ctl2, atl2, ctl2 - atl2⟩ :: scanDays (d + 1) rest ctl2 atl2

/-- The carried `(ctl, atl)` state after folding the load recursion over
a list of stress values. -/
def loadState (ctl atl : ℚ) : List ℚ → ℚ × ℚ
  | [] => (ctl, atl)
  | s :: rest => loadState (ctl + (s - ctl) / 42) (atl + (s - atl) / 7) rest

lemma foldl_min_le_init (l : List (ℤ × ℚ)) :
    ∀ acc : ℤ, l.foldl (fun a q => min a q.1) acc ≤ acc := by
  induction l with
  | nil => intro acc; simp
  | cons p ps ih =>
    intro acc
    exact le_trans (ih (min acc p.1)) (min_le_left _ _)

lemma foldl_min_le_mem (l : List (ℤ × ℚ)) :
    ∀ (acc : ℤ) (x : ℤ × ℚ), x ∈ l → l.foldl (fun a q => min a q.1) acc ≤ x.1 := by
  induction l with
  | nil => intro acc x hx; cases hx
  | cons p ps ih =>
    intro acc x hx
    rcases List.mem_cons.mp hx with h | h
    · subst h
      exact le_trans (foldl_min_le_init ps (min acc x.1)) (min_le_right _ _)
    · exact ih (min acc p.1) x h

lemma init_le_foldl_max (l : List (ℤ × ℚ)) :
    ∀ acc : ℤ, acc ≤ l.foldl (fun a q => max a q.1) acc := by
  induction l with
  | nil => intro acc; simp
  | cons p ps ih =>
    intro acc
    exact le_trans (le_max_left _ _) (ih (max acc p.1))

lemma mem_le_foldl_max (l : List (ℤ × ℚ)) :
    ∀ (acc : ℤ) (x : ℤ × ℚ), x ∈ l → x.1 ≤ l.foldl (fun a q => max a q.1) acc := by
  induction l with
  | nil => intro acc x hx; cases hx
  | cons p ps ih =>
    intro acc x hx
    rcases List.mem_cons.mp hx with h | h
    · subst h
      exact le_trans (le_max_right _ _) (init_le_foldl_max ps (max acc x.1))
    · exact ih (max acc p.1) x h

lemma minDate_le (rows : List (ℤ × ℚ)) (x : ℤ × ℚ) (hx : x ∈ rows) :
    minDate rows ≤ x.1 := by
  cases rows with
  | nil => cases hx
  | cons p ps =>
    rcases List.mem_cons.mp hx with h | h
    · subst h; exact foldl_min_le_init ps x.1
    · exact foldl_min_le_mem ps p.1 x h

lemma le_maxDate (rows : List (ℤ × ℚ)) (x : ℤ × ℚ) (hx : x ∈ rows) :
    x.1 ≤ maxDate rows := by
  cases rows with
  | nil => cases hx
  | cons p ps =>
    rcases List.mem_cons.mp hx with h | h
    · subst h; exact init_le_foldl_max ps x.1
    · exact mem_le_foldl_max ps p.1 x h

lemma minDate_le_maxDate (p : ℤ × ℚ) (ps : List (ℤ × ℚ)) :
    minDate (p :: ps) ≤ maxDate (p :: ps) :=
  le_trans (minDate_le (p :: ps) p (List.mem_cons_self p ps))
    (le_maxDate (p :: ps) p (List.mem_cons_self p ps))

lemma dayRange_length : ∀ (n : ℕ) (lo : ℤ), (dayRange lo n).length = n
  | 0, _ => rfl
  | n + 1, lo => by simp [dayRange, dayRange_length n (lo + 1)]

lemma dayRange_mem : ∀ (n : ℕ) (lo d : ℤ), d ∈ dayRange lo n ↔ lo ≤ d ∧ d < lo + n
  | 0, lo, d => by simp [dayRange]
  | n + 1, lo, d => by
    simp only [dayRange, List.mem_cons, dayRange_mem n (lo + 1) d]
    push_cast
    omega

lemma dayRange_pairwise : ∀ (n : ℕ) (lo : ℤ), (dayRange lo n).Pairwise (· < ·)
  | 0, _ => List.Pairwise.nil
  | n + 1, lo => by
    rw [show dayRange lo (n + 1) = lo :: dayRange (lo + 1) n from rfl, List.pairwise_cons]
    refine ⟨fun d hd => ?_, dayRange_pairwise n (lo + 1)⟩
    have := (dayRange_mem n (lo + 1) d).mp hd
    omega

lemma dayRange_nodup (n : ℕ) (lo : ℤ) : (dayRange lo n).Nodup :=
  (dayRange_pairwise n lo).imp ne_of_lt

lemma dayRange_chain : ∀ (n : ℕ) (lo : ℤ),
    List.Chain' (fun p q => q = p + 1) (dayRange lo n)
  | 0, _ => List.chain'_nil
  | 1, lo => List.chain'_singleton lo
  | n + 2, lo => by
    rw [show dayRange lo (n + 2) = lo :: (lo + 1) :: dayRange (lo + 1 + 1) n from rfl,
      List.chain'_cons]
    refine ⟨rfl, ?_⟩
    rw [show ((lo + 1) :: dayRange (lo + 1 + 1) n) = dayRange (lo + 1) (n + 1) from rfl]
    exact dayRange_chain (n + 1) (lo + 1)

lemma runDays_map_date (rows : List (ℤ × ℚ)) :
    ∀ (days : List ℤ) (c a : ℚ),
      (runDays rows days c a).map DayRecord.date = days := by
  intro days
  induction days with
  | nil => intro c a; rfl
  | cons d ds ih => intro c a; simp [runDays, ih]

lemma runDays_length (rows : List (ℤ × ℚ)) :
    ∀ (days : List ℤ) (c a : ℚ), (runDays rows days c a).length = days.length := by
  intro days
  induction days with
  | nil => intro c a; rfl
  | cons d ds ih => intro c a; simp [runDays, ih]

lemma runDays_tsb (rows : List (ℤ × ℚ)) :
    ∀ (days : List ℤ) (c a : ℚ) (r : DayRecord),
      r ∈ runDays rows days c a → r.tsb = r.ctl - r.atl := by
  intro days
  induction days with
  | nil => intro c a r hr; cases hr
  | cons d ds ih =>
    intro c a r hr
    rcases List.mem_cons.mp hr with h | h
    · subst h; rfl
    · exact ih _ _ r h

lemma runDays_TSS (rows : List (ℤ × ℚ)) :
    ∀ (days : List ℤ) (c a : ℚ) (r : DayRecord),
      r ∈ runDays rows days c a → r.TSS = lookupTSS r.date rows := by
  intro days
  induction days with
  | nil => intro c a r hr; cases hr
  | cons d ds ih =>
    intro c a r hr
    rcases List.mem_cons.mp hr with h | h
    · subst h; rfl
    · exact ih _ _ r h

lemma runDays_adj (days : List ℤ) :
    ∀ (rows : List (ℤ × ℚ)) (c a : ℚ) (i : ℕ) (ri rj : DayRecord),
      (runDays rows days c a)[i]? = some ri →
      (runDays rows days c a)[i + 1]? = some rj →
      rj.ctl = ri.ctl + (rj.TSS - ri.ctl) / 42 ∧
      rj.atl = ri.atl + (rj.TSS - ri.atl) / 7 := by
  induction days with
  | nil => intro rows c a i ri rj h1 h2; simp [runDays] at h1
  | cons d ds ih =>
    intro rows c a i ri rj h1 h2
    match i with
    | 0 =>
      cases ds with
      | nil => simp [runDays] at h2
      | cons e es =>
        simp only [runDays, List.getElem?_cons_zero, List.getElem?_cons_succ,
          Option.some.injEq] at h1 h2
        subst h1
        subst h2
        constructor <;> rfl
    | j + 1 =>
      simp only [runDays, List.getElem?_cons_succ] at h1 h2
      exact ih rows _ _ j ri rj h1 h2

lemma lookupTSS_eq_of_mem :
    ∀ (rows : List (ℤ × ℚ)), (rows.map Prod.fst).Nodup →
      ∀ (d : ℤ) (s : ℚ), (d, s) ∈ rows → lookupTSS d rows = s := by
  intro rows
  induction rows with
  | nil => intro _ d s h; cases h
  | cons p ps ih =>
    intro hnd d s h
    rw [List.map_cons, List.nodup_cons] at hnd
    rcases List.mem_cons.mp h with h0 | h0
    · rw [← h0]
      simp [lookupTSS]
    · have hne : p.1 ≠ d := by
        intro he
        exact hnd.1 (he ▸ List.mem_map_of_mem Prod.fst h0)
      simp only [lookupTSS, if_neg hne]
      exact ih hnd.2 d s h0

lemma lookupTSS_eq_zero :
    ∀ (rows : List (ℤ × ℚ)) (d : ℤ), (∀ s : ℚ, (d, s) ∉ rows) →
      lookupTSS d rows = 0 := by
  intro rows
  induction rows with
  | nil => intro d _; rfl
  | cons p ps ih =>
    intro d h
    have hne : p.1 ≠ d := by
      intro he
      exact h p.2 (by rw [← he]; exact List.mem_cons_self p ps)
    simp only [lookupTSS, if_neg hne]
    exact ih d (fun s hs => h s (List.mem_cons_of_mem p hs))

lemma calculate_eq_run (df : List Obs) (c a : ℚ) (hne : cleanRows df ≠ [])
    (hnd : ((cleanRows df).map Prod.fst).Nodup) :
    calculate_ctl_atl_tsb df c a =
      .ok (runDays (cleanRows df)
        (dayRange (minDate (cleanRows df))
          ((maxDate (cleanRows df) - minDate (cleanRows df)).toNat + 1)) c a) := by
  unfold calculate_ctl_atl_tsb
  rw [if_neg hne, if_pos hnd]

lemma calculate_ok (df : List Obs) (c a : ℚ) (out : List DayRecord)
    (h : calculate_ctl_atl_tsb df c a = .ok out) :
    cleanRows df ≠ [] ∧ ((cleanRows df).map Prod.fst).Nodup ∧
      out = runDays (cleanRows df)
        (dayRange (minDate (cleanRows df))
          ((maxDate (cleanRows df) - minDate (cleanRows df)).toNat + 1)) c a := by
  unfold calculate_ctl_atl_tsb at h
  by_cases hne : cleanRows df = []
  · rw [if_pos hne] at h
    exact Except.noConfusion h
  · rw [if_neg hne] at h
    by_cases hnd : ((cleanRows df).map Prod.fst).Nodup
    · rw [if_pos hnd] at h
      exact ⟨hne, hnd, (Except.ok.inj h).symm⟩
    · rw [if_neg hnd] at h
      exact Except.noConfusion h

lemma minDate_le_maxDate_of_ne (rows : List (ℤ × ℚ)) (h : rows ≠ []) :
    minDate rows ≤ maxDate rows := by
  cases rows with
  | nil => exact absurd rfl h
  | cons p ps => exact minDate_le_maxDate p ps

example :
    calculate_ctl_atl_tsb [⟨.dt 0, some 42⟩] 0 0 =
      .ok [⟨0, 42, 1, 6, -5⟩] := by
  norm_num [calculate_ctl_atl_tsb, cleanRows, List.filterMap_cons, DateVal.day,
    minDate, maxDate, dayRange, runDays, lookupTSS]

example :
    calculate_ctl_atl_tsb [⟨.dt 0, none⟩] 0 0 =
      .error PyError.valueErrorNaTDateRange := by
  norm_num [calculate_ctl_atl_tsb, cleanRows, List.filterMap_cons]

example :
    calculate_ctl_atl_tsb [⟨.dt 0, some 1⟩, ⟨.dt 0, some 2⟩] 0 0 =
      .error PyError.valueErrorDuplicateAxis := by
  norm_num [calculate_ctl_atl_tsb, cleanRows, List.filterMap_cons, DateVal.day]
  intro h
  exact absurd h (List.cons_ne_nil _ _)

example :
    calculate_ctl_atl_tsb [⟨.dt 2, some 42⟩, ⟨.dt 0, some 42⟩] 0 0 =
      .ok [⟨0, 42, 1, 6, -5⟩,
           ⟨1, 0, 41/42, 36/7, 41/42 - 36/7⟩,
           ⟨2, 42, 41/42 + (42 - 41/42)/42,
                   36/7 + (42 - 36/7)/7,
             (41/42 + (42 - 41/42)/42) - (36/7 + (42 - 36/7)/7)⟩] := by
  norm_num [calculate_ctl_atl_tsb, cleanRows, List.filterMap_cons, DateVal.day,
    minDate, maxDate, dayRange, runDays, lookupTSS]
  intro h
  exact absurd h (List.cons_ne_nil _ _)

/-- C1: for every cleaned, date-sorted, non-empty observation series and
finite seeds, the daily-load calculation succeeds and processes the
gap-filled days in ascending date order in a single forward pass, with
the first record pulled one step from the seeds, each later record
pulled one step from the previous record by
`ctl2 = ctl + (stress - ctl)/42` and `atl2 = atl + (stress - atl)/7`,
and a cleaned series of length 1 yields exactly one record pulled one
step from the seed values. -/
theorem C1_forward_recursion (df : List Obs) (c a : ℚ) (hne : cleanRows df ≠ [])
    (hnd : ((cleanRows df).map Prod.fst).Nodup) :
    ∃ out, calculate_ctl_atl_tsb df c a = .ok out ∧
      (out.map DayRecord.date).Pairwise (· < ·) ∧
      (∀ r0, out[0]? = some r0 →
        r0.ctl = c + (r0.TSS - c) / 42 ∧ r0.atl = a + (r0.TSS - a) / 7) ∧
      (∀ i ri rj, out[i]? = some ri → out[i + 1]? = some rj →
        rj.ctl = ri.ctl + (rj.TSS - ri.ctl) / 42 ∧
        rj.atl = ri.atl + (rj.TSS - ri.atl) / 7) ∧
      (∀ d s, cleanRows df = [(d, s)] →
        out = [⟨d, s, c + (s - c) / 42, a + (s - a) / 7,
               (c + (s - c) / 42) - (a + (s - a) / 7)⟩]) := by
  refine ⟨_, calculate_eq_run df c a hne hnd, ?_, ?_, ?_, ?_⟩
  · rw [runDays_map_date]
    exact dayRange_pairwise _ _
  · intro r0 h0
    simp only [dayRange, runDays, List.getElem?_cons_zero, Option.some.injEq] at h0
    subst h0
    exact ⟨rfl, rfl⟩
  · intro i ri rj h1 h2
    exact runDays_adj _ _ c a i ri rj h1 h2
  · intro d s hs
    simp [hs, minDate, maxDate, dayRange, runDays, lookupTSS]

/-- C1 witness: the one-day series with stress 42 and seeds 0. -/
theorem C1_forward_recursion_witness :
    ∃ out, calculate_ctl_atl_tsb [⟨DateVal.dt 0, some 42⟩] 0 0 = .ok out ∧
      (out.map DayRecord.date).Pairwise (· < ·) ∧
      (∀ r0, out[0]? = some r0 →
        r0.ctl = 0 + (r0.TSS - 0) / 42 ∧ r0.atl = 0 + (r0.TSS - 0) / 7) ∧
      (∀ i ri rj, out[i]? = some ri → out[i + 1]? = some rj →
        rj.ctl = ri.ctl + (rj.TSS - ri.ctl) / 42 ∧
        rj.atl = ri.atl + (rj.TSS - ri.atl) / 7) ∧
      (∀ d s, cleanRows [⟨DateVal.dt 0, some 42⟩] = [(d, s)] →
        out = [⟨d, s, 0 + (s - 0) / 42, 0 + (s - 0) / 7,
               (0 + (s - 0) / 42) - (0 + (s - 0) / 7)⟩]) :=
  C1_forward_recursion [⟨DateVal.dt 0, some 42⟩] 0 0
    (by norm_num [cleanRows, List.filterMap_cons])
    (by norm_num [cleanRows, List.filterMap_cons, DateVal.day])

/-- C2 counterexample: an observation series with a non-missing stress
value on each of two rows sharing one date makes the calculation raise
the pandas duplicate-axis `ValueError` instead of returning a
`DailySeries`, so the claim fails for series whose non-missing rows
repeat a date. -/
theorem C2_counterexample :
    calculate_ctl_atl_tsb [⟨DateVal.dt 10, some 1⟩, ⟨DateVal.dt 10, some 2⟩] 0 0 =
      .error PyError.valueErrorDuplicateAxis := by
  norm_num [calculate_ctl_atl_tsb, cleanRows, List.filterMap_cons, DateVal.day]
  intro h
  exact absurd h (List.cons_ne_nil _ _)

/-- C2 (amended): for every observation series with at least one
non-missing stress value and pairwise distinct dates among the
non-missing rows, the returned series has exactly
`(max date - min date) + 1` records, its dates are a contiguous
ascending run of step 1 in which every date of the inclusive range
appears exactly once, days with a matching observation carry its stress
value, and days without one carry stress 0. -/
theorem C2_gap_filling (df : List Obs) (c a : ℚ) (hne : cleanRows df ≠ [])
    (hnd : ((cleanRows df).map Prod.fst).Nodup) :
    ∃ out, calculate_ctl_atl_tsb df c a = .ok out ∧
      out.length = (maxDate (cleanRows df) - minDate (cleanRows df)).toNat + 1 ∧
      List.Chain' (fun p q => q = p + 1) (out.map DayRecord.date) ∧
      (∀ d : ℤ, minDate (cleanRows df) ≤ d → d ≤ maxDate (cleanRows df) →
        (out.map DayRecord.date).count d = 1) ∧
      (∀ r ∈ out, (∀ s : ℚ, (r.date, s) ∈ cleanRows df → r.TSS = s) ∧
        ((∀ s : ℚ, (r.date, s) ∉ cleanRows df) → r.TSS = 0)) := by
  refine ⟨_, calculate_eq_run df c a hne hnd, ?_, ?_, ?_, ?_⟩
  · rw [runDays_length, dayRange_length]
  · rw [runDays_map_date]
    exact dayRange_chain _ _
  · intro d hd1 hd2
    rw [runDays_map_date]
    refine List.count_eq_one_of_mem (dayRange_nodup _ _) ?_
    rw [dayRange_mem]
    have hlh := minDate_le_maxDate_of_ne (cleanRows df) hne
    refine ⟨hd1, ?_⟩
    omega
  · intro r hr
    have hT := runDays_TSS (cleanRows df) _ c a r hr
    exact ⟨fun s hs => hT.trans (lookupTSS_eq_of_mem (cleanRows df) hnd r.date s hs),
           fun hnone => hT.trans (lookupTSS_eq_zero (cleanRows df) r.date hnone)⟩

/-- C2 witness: two observations three days apart. -/
theorem C2_gap_filling_witness :
    ∃ out, calculate_ctl_atl_tsb [⟨DateVal.dt 5, some 3⟩, ⟨DateVal.dt 7, some 4⟩] 0 0 = .ok out ∧
      out.length = (maxDate (cleanRows [⟨DateVal.dt 5, some 3⟩, ⟨DateVal.dt 7, some 4⟩]) -
        minDate (cleanRows [⟨DateVal.dt 5, some 3⟩, ⟨DateVal.dt 7, some 4⟩])).toNat + 1 ∧
      List.Chain' (fun p q => q = p + 1) (out.map DayRecord.date) ∧
      (∀ d : ℤ, minDate (cleanRows [⟨DateVal.dt 5, some 3⟩, ⟨DateVal.dt 7, some 4⟩]) ≤ d →
        d ≤ maxDate (cleanRows [⟨DateVal.dt 5, some 3⟩, ⟨DateVal.dt 7, some 4⟩]) →
        (out.map DayRecord.date).count d = 1) ∧
      (∀ r ∈ out,
        (∀ s : ℚ, (r.date, s) ∈ cleanRows [⟨DateVal.dt 5, some 3⟩, ⟨DateVal.dt 7, some 4⟩] →
          r.TSS = s) ∧
        ((∀ s : ℚ, (r.date, s) ∉ cleanRows [⟨DateVal.dt 5, some 3⟩, ⟨DateVal.dt 7, some 4⟩]) →
          r.TSS = 0)) :=
  C2_gap_filling [⟨DateVal.dt 5, some 3⟩, ⟨DateVal.dt 7, some 4⟩] 0 0
    (by simp [cleanRows, List.filterMap_cons])
    (by norm_num [cleanRows, List.filterMap_cons, DateVal.day])

/-- C4: every record of a successfully returned daily series satisfies
`tsb = ctl - atl`. -/
theorem C4_tsb_invariant (df : List Obs) (c a : ℚ) (out : List DayRecord)
    (h : calculate_ctl_atl_tsb df c a = .ok out) :
    ∀ r ∈ out, r.tsb = r.ctl - r.atl := by
  obtain ⟨-, -, hout⟩ := calculate_ok df c a out h
  intro r hr
  rw [hout] at hr
  exact runDays_tsb _ _ c a r hr

/-- C4 witness: the single record of the one-day series with stress 7. -/
theorem C4_tsb_invariant_witness :
    DayRecord.tsb ⟨0, 7, 1/6, 1, 1/6 - 1⟩ =
      DayRecord.ctl ⟨0, 7, 1/6, 1, 1/6 - 1⟩ - DayRecord.atl ⟨0, 7, 1/6, 1, 1/6 - 1⟩ :=
  C4_tsb_invariant [⟨DateVal.dt 0, some 7⟩] 0 0 [⟨0, 7, 1/6, 1, 1/6 - 1⟩]
    (by norm_num [calculate_ctl_atl_tsb, cleanRows, List.filterMap_cons, DateVal.day,
      minDate, maxDate, dayRange, runDays, lookupTSS])
    ⟨0, 7, 1/6, 1, 1/6 - 1⟩ (List.mem_singleton.mpr rfl)

/-- C5 counterexample: with zero valid observations the calculation does
fail, but with the pandas `ValueError` raised by `pd.date_range` on
`NaT` bounds, which is not the `EmptyInputError` named by the claim (no
such class exists in the source). -/
theorem C5_counterexample :
    calculate_ctl_atl_tsb [⟨DateVal.dt 0, none⟩] 0 0 =
      .error PyError.valueErrorNaTDateRange ∧
    PyError.valueErrorNaTDateRange ≠ PyError.emptyInputError := by
  refine ⟨by norm_num [calculate_ctl_atl_tsb, cleanRows, List.filterMap_cons], ?_⟩
  decide

/-- C5 (amended): if zero valid observations remain after dropping rows
with missing stress values, the calculation fails with the pandas
`ValueError` raised by `pd.date_range` on `NaT` bounds (and with no
other outcome); it does not return a series. -/
theorem C5_empty_input_failure (df : List Obs) (c a : ℚ) (h : cleanRows df = []) :
    calculate_ctl_atl_tsb df c a = .error PyError.valueErrorNaTDateRange := by
  unfold calculate_ctl_atl_tsb
  rw [if_pos h]

/-- C5 witness: a series whose only stress value is missing. -/
theorem C5_empty_input_failure_witness :
    calculate_ctl_atl_tsb [⟨DateVal.dt 3, none⟩, ⟨DateVal.raw 9, none⟩] 0 0 =
      .error PyError.valueErrorNaTDateRange :=
  C5_empty_input_failure [⟨DateVal.dt 3, none⟩, ⟨DateVal.raw 9, none⟩] 0 0
    (by norm_num [cleanRows, List.filterMap_cons])

/-- C7 counterexample: two observations on the same date do not collapse
to a single record; the calculation fails with the pandas duplicate-axis
`ValueError`, refuting the claim that it succeeds with one record. -/
theorem C7_counterexample :
    calculate_ctl_atl_tsb [⟨DateVal.dt 3, some 5⟩, ⟨DateVal.dt 3, some 7⟩] 0 0 =
      .error PyError.valueErrorDuplicateAxis := by
  norm_num [calculate_ctl_atl_tsb, cleanRows, List.filterMap_cons, DateVal.day]
  intro h
  exact absurd h (List.cons_ne_nil _ _)

/-- C7 (amended): whenever the rows surviving the missing-value drop
repeat a date, the calculation fails with the pandas duplicate-axis
`ValueError` raised by `reindex`; no aggregation of same-day rows
occurs and no series is returned. -/
theorem C7_duplicate_dates (df : List Obs) (c a : ℚ)
    (hdup : ¬ ((cleanRows df).map Prod.fst).Nodup) :
    calculate_ctl_atl_tsb df c a = .error PyError.valueErrorDuplicateAxis := by
  have hne : cleanRows df ≠ [] := by
    intro h
    rw [h] at hdup
    exact hdup (by simp)
  unfold calculate_ctl_atl_tsb
  rw [if_neg hne, if_neg hdup]

/-- C7 witness: two same-day observations with stresses 1 and 2. -/
theorem C7_duplicate_dates_witness :
    calculate_ctl_atl_tsb [⟨DateVal.dt 8, some 1⟩, ⟨DateVal.dt 8, some 2⟩] 0 0 =
      .error PyError.valueErrorDuplicateAxis :=
  C7_duplicate_dates [⟨DateVal.dt 8, some 1⟩, ⟨DateVal.dt 8, some 2⟩] 0 0
    (by norm_num [cleanRows, List.filterMap_cons, DateVal.day])

lemma cleanRows_mkRows : ∀ (S : List ℚ) (d : ℤ), cleanRows (mkRows d S) = mkPairs d S
  | [], _ => rfl
  | s :: rest, d => by
    simp only [mkRows, mkPairs, cleanRows, List.filterMap_cons, Option.map_some']
    rw [show DateVal.day (DateVal.dt d) = d from rfl]
    exact congrArg _ (cleanRows_mkRows rest (d + 1))

lemma mkPairs_fst_bounds : ∀ (S : List ℚ) (d : ℤ) (x : ℤ × ℚ),
    x ∈ mkPairs d S → d ≤ x.1 ∧ x.1 < d + S.length
  | [], _, x, hx => absurd hx (List.not_mem_nil x)
  | s :: rest, d, x, hx => by
    rcases List.mem_cons.mp hx with h | h
    · subst h
      simp only [List.length_cons]
      push_cast
      omega
    · have := mkPairs_fst_bounds rest (d + 1) x h
      simp only [List.length_cons]
      push_cast at this ⊢
      omega

lemma mkPairs_nodup : ∀ (S : List ℚ) (d : ℤ), ((mkPairs d S).map Prod.fst).Nodup
  | [], _ => List.nodup_nil
  | s :: rest, d => by
    simp only [mkPairs, List.map_cons, List.nodup_cons]
    refine ⟨fun hmem => ?_, mkPairs_nodup rest (d + 1)⟩
    obtain ⟨x, hx, hxd⟩ := List.mem_map.mp hmem
    have := mkPairs_fst_bounds rest (d + 1) x hx
    omega

lemma foldl_min_eq_init (l : List (ℤ × ℚ)) :
    ∀ acc : ℤ, (∀ x ∈ l, acc ≤ x.1) → l.foldl (fun a q => min a q.1) acc = acc := by
  induction l with
  | nil => intro acc _; rfl
  | cons p ps ih =>
    intro acc h
    rw [List.foldl_cons, min_eq_left (h p (List.mem_cons_self p ps))]
    exact ih acc (fun x hx => h x (List.mem_cons_of_mem p hx))

lemma minDate_mkPairs (S : List ℚ) (d : ℤ) (s : ℚ) :
    minDate (mkPairs d (s :: S)) = d := by
  simp only [mkPairs, minDate]
  refine foldl_min_eq_init _ d (fun x hx => ?_)
  have := mkPairs_fst_bounds S (d + 1) x hx
  omega

lemma maxDate_mkPairs : ∀ (S : List ℚ) (d : ℤ) (s : ℚ),
    maxDate (mkPairs d (s :: S)) = d + S.length
  | [], d, s => by simp [mkPairs, maxDate]
  | s' :: S', d, s => by
    have ih := maxDate_mkPairs S' (d + 1) s'
    simp only [mkPairs, maxDate, List.foldl_cons] at ih ⊢
    rw [show max d (d + 1, s').1 = d + 1 from by
      rw [show (d + 1, s').1 = d + 1 from rfl]; omega]
    rw [ih]
    simp only [List.length_cons]
    push_cast
    ring

lemma runDays_skip : ∀ (days : List ℤ) (rows : List (ℤ × ℚ)) (d : ℤ) (s : ℚ) (c a : ℚ),
    (∀ e ∈ days, e ≠ d) →
    runDays ((d, s) :: rows) days c a = runDays rows days c a
  | [], _, _, _, _, _, _ => rfl
  | e :: es, rows, d, s, c, a, h => by
    have he : e ≠ d := h e (List.mem_cons_self e es)
    simp only [runDays, lookupTSS, show ((d, s).1 = e) = (d = e) from rfl, if_neg (Ne.symm he)]
    rw [runDays_skip es rows d s _ _ (fun x hx => h x (List.mem_cons_of_mem e hx))]

lemma run_eq_scan : ∀ (S : List ℚ) (d : ℤ) (c a : ℚ),
    runDays (mkPairs d S) (dayRange d S.length) c a = scanDays d S c a
  | [], _, _, _ => rfl
  | s :: rest, d, c, a => by
    simp only [mkPairs, List.length_cons, dayRange, runDays, scanDays, lookupTSS,
      show ((d, s).1 = d) = (d = d) from rfl, eq_self_iff_true, if_true]
    refine congrArg _ ?_
    have hskip : ∀ e ∈ dayRange (d + 1) rest.length, e ≠ d := by
      intro e he
      have := (dayRange_mem rest.length (d + 1) e).mp he
      omega
    rw [runDays_skip _ _ d s _ _ hskip, run_eq_scan rest (d + 1) _ _]

lemma calc_mkRows (S : List ℚ) (d : ℤ) (c a : ℚ) (hS : S ≠ []) :
    calculate_ctl_atl_tsb (mkRows d S) c a = .ok (scanDays d S c a) := by
  cases S with
  | nil => exact absurd rfl hS
  | cons s rest =>
    have hne : cleanRows (mkRows d (s :: rest)) ≠ [] := by
      rw [cleanRows_mkRows]
      exact List.cons_ne_nil _ _
    have hnd : ((cleanRows (mkRows d (s :: rest))).map Prod.fst).Nodup := by
      rw [cleanRows_mkRows]
      exact mkPairs_nodup (s :: rest) d
    rw [calculate_eq_run _ c a hne hnd, cleanRows_mkRows, minDate_mkPairs, maxDate_mkPairs]
    rw [show (d + (rest.length : ℤ) - d).toNat + 1 = (s :: rest).length from by
      simp only [List.length_cons]; omega]
    rw [run_eq_scan]

lemma scan_length : ∀ (S : List ℚ) (d : ℤ) (c a : ℚ),
    (scanDays d S c a).length = S.length
  | [], _, _, _ => rfl
  | s :: rest, d, c, a => by
    simp only [scanDays, List.length_cons, scan_length rest (d + 1) _ _]

lemma scan_append : ∀ (S1 S2 : List ℚ) (d : ℤ) (c a : ℚ),
    scanDays d (S1 ++ S2) c a =
      scanDays d S1 c a ++
        scanDays (d + S1.length) S2 (loadState c a S1).1 (loadState c a S1).2
  | [], S2, d, c, a => by simp [scanDays, loadState]
  | s :: S1', S2, d, c, a => by
    have harg : d + (((s :: S1').length : ℕ) : ℤ) = (d + 1) + (S1'.length : ℤ) := by
      simp only [List.length_cons]
      push_cast
      ring
    rw [harg]
    rw [show (s :: S1') ++ S2 = s :: (S1' ++ S2) from rfl]
    rw [show scanDays d (s :: (S1' ++ S2)) c a =
      (⟨d, s, c + (s - c) / 42, a + (s - a) / 7,
        (c + (s - c) / 42) - (a + (s - a) / 7)⟩ : DayRecord) ::
        scanDays (d + 1) (S1' ++ S2) (c + (s - c) / 42) (a + (s - a) / 7) from rfl]
    rw [scan_append S1' S2 (d + 1) (c + (s - c) / 42) (a + (s - a) / 7)]
    rfl

lemma scan_last : ∀ (S : List ℚ) (d : ℤ) (c a : ℚ), S ≠ [] →
    ∃ r, (scanDays d S c a).getLast? = some r ∧
      r.ctl = (loadState c a S).1 ∧ r.atl = (loadState c a S).2
  | [], _, _, _, h => absurd rfl h
  | [s], d, c, a, _ =>
    ⟨⟨d, s, c + (s - c) / 42, a + (s - a) / 7,
      (c + (s - c) / 42) - (a + (s - a) / 7)⟩, rfl, rfl, rfl⟩
  | s :: s' :: S', d, c, a, _ => by
    obtain ⟨r, hr, hc, ha⟩ :=
      scan_last (s' :: S') (d + 1) (c + (s - c) / 42) (a + (s - a) / 7)
        (List.cons_ne_nil s' S')
    refine ⟨r, ?_, hc, ha⟩
    rw [show scanDays d (s :: s' :: S') c a =
      (⟨d, s, c + (s - c) / 42, a + (s - a) / 7,
        (c + (s - c) / 42) - (a + (s - a) / 7)⟩ : DayRecord) ::
        scanDays (d + 1) (s' :: S') (c + (s - c) / 42) (a + (s - a) / 7) from rfl]
    rw [show scanDays (d + 1) (s' :: S') (c + (s - c) / 42) (a + (s - a) / 7) =
      (⟨d + 1, s', _, _, _⟩ : DayRecord) :: scanDays (d + 1 + 1) S' _ _ from rfl]
    rw [List.getLast?_cons_cons]
    rw [← show scanDays (d + 1) (s' :: S') (c + (s - c) / 42) (a + (s - a) / 7) =
      (⟨d + 1, s', _, _, _⟩ : DayRecord) :: scanDays (d + 1 + 1) S' _ _ from rfl]
    exact hr

/-- C8: over a contiguous 20-day stress sequence, running the
calculation on days 1-10 with default seeds and then on days 11-20
seeded with the final ctl and atl of the first run reproduces exactly
the records that a single run over all 20 days with default seeds
assigns to days 11-20. -/
theorem C8_seed_continuation (S1 S2 : List ℚ) (d0 : ℤ)
    (h1 : S1.length = 10) (h2 : S2.length = 10) :
    ∃ out20 outA outB r,
      calculate_ctl_atl_tsb (mkRows d0 (S1 ++ S2)) 0 0 = .ok out20 ∧
      calculate_ctl_atl_tsb (mkRows d0 S1) 0 0 = .ok outA ∧
      outA.getLast? = some r ∧
      calculate_ctl_atl_tsb (mkRows (d0 + 10) S2) r.ctl r.atl = .ok outB ∧
      outB = out20.drop 10 := by
  have hS1ne : S1 ≠ [] := by
    intro h
    rw [h] at h1
    cases h1
  have hS2ne : S2 ≠ [] := by
    intro h
    rw [h] at h2
    cases h2
  have h12ne : S1 ++ S2 ≠ [] := by
    intro h
    exact hS1ne (List.append_eq_nil.mp h).1
  obtain ⟨r, hlast, hrc, hra⟩ := scan_last S1 d0 0 0 hS1ne
  refine ⟨scanDays d0 (S1 ++ S2) 0 0, scanDays d0 S1 0 0,
    scanDays (d0 + 10) S2 r.ctl r.atl, r,
    calc_mkRows _ _ 0 0 h12ne, calc_mkRows _ _ 0 0 hS1ne, hlast,
    calc_mkRows _ _ _ _ hS2ne, ?_⟩
  rw [scan_append S1 S2 d0 0 0]
  rw [show (10 : ℕ) = (scanDays d0 S1 0 0).length from
    ((scan_length S1 d0 0 0).trans h1).symm]
  rw [List.drop_left]
  rw [hrc, hra, h1]
  norm_num

/-- C8 witness: stresses 1 on days 1-10 and 2 on days 11-20, from day 0. -/
theorem C8_seed_continuation_witness :
    ∃ out20 outA outB r,
      calculate_ctl_atl_tsb
        (mkRows 0 (List.replicate 10 (1 : ℚ) ++ List.replicate 10 (2 : ℚ))) 0 0 =
        .ok out20 ∧
      calculate_ctl_atl_tsb (mkRows 0 (List.replicate 10 (1 : ℚ))) 0 0 = .ok outA ∧
      outA.getLast? = some r ∧
      calculate_ctl_atl_tsb (mkRows (0 + 10) (List.replicate 10 (2 : ℚ))) r.ctl r.atl =
        .ok outB ∧
      outB = out20.drop 10 :=
  C8_seed_continuation (List.replicate 10 1) (List.replicate 10 2) 0
    (List.length_replicate 10 1) (List.length_replicate 10 2)

lemma scan_const_inv (S : ℚ) : ∀ (n : ℕ) (d : ℤ) (c a : ℚ), 0 ≤ c → c ≤ a → a < S →
    (∀ r ∈ scanDays d (List.replicate n S) c a,
      r.ctl < S ∧ r.atl < S ∧ r.ctl ≤ r.atl ∧ c < r.ctl ∧ a < r.atl) ∧
    ((scanDays d (List.replicate n S) c a).map DayRecord.ctl).Pairwise (· < ·) ∧
    ((scanDays d (List.replicate n S) c a).map DayRecord.atl).Pairwise (· < ·) := by
  intro n
  induction n with
  | zero =>
    intro d c a _ _ _
    refine ⟨fun r hr => absurd hr (List.not_mem_nil r), ?_, ?_⟩ <;>
      simp [List.replicate, scanDays]
  | succ m ih =>
    intro d c a h0 hca haS
    have hcS : c < S := lt_of_le_of_lt hca haS
    have hcc2 : c < c + (S - c) / 42 := by linarith
    have haa2 : a < a + (S - a) / 7 := by linarith
    have h02 : 0 ≤ c + (S - c) / 42 := by linarith
    have hc2a2 : c + (S - c) / 42 ≤ a + (S - a) / 7 := by linarith
    have ha2S : a + (S - a) / 7 < S := by linarith
    have hc2S : c + (S - c) / 42 < S := by linarith
    obtain ⟨hmem, hpc, hpa⟩ := ih (d + 1) (c + (S - c) / 42) (a + (S - a) / 7) h02 hc2a2 ha2S
    rw [List.replicate_succ]
    refine ⟨?_, ?_, ?_⟩
    · intro r hr
      rcases List.mem_cons.mp hr with h | h
      · subst h
        exact ⟨hc2S, ha2S, hc2a2, hcc2, haa2⟩
      · obtain ⟨h1, h2, h3, h4, h5⟩ := hmem r h
        exact ⟨h1, h2, h3, lt_trans hcc2 h4, lt_trans haa2 h5⟩
    · rw [show (scanDays d (S :: List.replicate m S) c a).map DayRecord.ctl =
        (c + (S - c) / 42) ::
          (scanDays (d + 1) (List.replicate m S)
            (c + (S - c) / 42) (a + (S - a) / 7)).map DayRecord.ctl from rfl,
        List.pairwise_cons]
      refine ⟨fun v hv => ?_, hpc⟩
      obtain ⟨r, hr, hrv⟩ := List.mem_map.mp hv
      rw [← hrv]
      exact (hmem r hr).2.2.2.1
    · rw [show (scanDays d (S :: List.replicate m S) c a).map DayRecord.atl =
        (a + (S - a) / 7) ::
          (scanDays (d + 1) (List.replicate m S)
            (c + (S - c) / 42) (a + (S - a) / 7)).map DayRecord.atl from rfl,
        List.pairwise_cons]
      refine ⟨fun v hv => ?_, hpa⟩
      obtain ⟨r, hr, hrv⟩ := List.mem_map.mp hv
      rw [← hrv]
      exact (hmem r hr).2.2.2.2

/-- C9 counterexample: holding the constant stress S = 0 for two days
with seeds 0 produces two records with equal (zero) ctl, so the ctl
sequence is not strictly increasing; the claim fails for S = 0. -/
theorem C9_counterexample :
    calculate_ctl_atl_tsb (mkRows 0 (List.replicate 2 (0 : ℚ))) 0 0 =
      .ok [⟨0, 0, 0, 0, 0⟩, ⟨1, 0, 0, 0, 0⟩] ∧
    ¬ (([⟨0, 0, 0, 0, 0⟩, ⟨1, 0, 0, 0, 0⟩] : List DayRecord).map
        DayRecord.ctl).Pairwise (· < ·) := by
  constructor
  · rw [calc_mkRows _ 0 0 0 (by simp [List.replicate])]
    norm_num [List.replicate, scanDays]
  · simp only [List.map_cons, List.map_nil, List.pairwise_cons]
    intro hcontra
    have := hcontra.1 ((0 : ℚ)) (by simp)
    exact absurd this (lt_irrefl 0)

/-- C9 (amended): for every constant stress value S > 0 held over n
greater or equal 1 consecutive days with seeds 0, the calculation
succeeds, ctl and atl are strictly increasing in the day index and
bounded strictly above by S, and atl is at least as close to S as ctl on
every day.  (For S = 0 all values stay 0, so the strict monotonicity
claimed for every S fails; see the counterexample.) -/
theorem C9_monotone_convergence (S : ℚ) (n : ℕ) (d0 : ℤ) (hS : 0 < S) (hn : 1 ≤ n) :
    ∃ out, calculate_ctl_atl_tsb (mkRows d0 (List.replicate n S)) 0 0 = .ok out ∧
      (out.map DayRecord.ctl).Pairwise (· < ·) ∧
      (out.map DayRecord.atl).Pairwise (· < ·) ∧
      ∀ r ∈ out, r.ctl < S ∧ r.atl < S ∧ S - r.atl ≤ S - r.ctl := by
  have hne : List.replicate n S ≠ [] := by
    intro h
    have := congrArg List.length h
    simp only [List.length_replicate, List.length_nil] at this
    omega
  obtain ⟨hmem, hpc, hpa⟩ := scan_const_inv S n d0 0 0 le_rfl le_rfl hS
  refine ⟨_, calc_mkRows _ d0 0 0 hne, hpc, hpa, fun r hr => ?_⟩
  obtain ⟨h1, h2, h3, -, -⟩ := hmem r hr
  exact ⟨h1, h2, by linarith⟩

/-- C9 witness: S = 42 over two days. -/
theorem C9_monotone_convergence_witness :
    ∃ out, calculate_ctl_atl_tsb (mkRows 0 (List.replicate 2 (42 : ℚ))) 0 0 = .ok out ∧
      (out.map DayRecord.ctl).Pairwise (· < ·) ∧
      (out.map DayRecord.atl).Pairwise (· < ·) ∧
      ∀ r ∈ out, r.ctl < 42 ∧ r.atl < 42 ∧ 42 - r.atl ≤ 42 - r.ctl :=
  C9_monotone_convergence 42 2 0 (by norm_num) (by norm_num)

/-- C10 counterexample: a caller passing an unparsed (string) date
observes its frame changed after the daily-load call: line 60 of the
source writes the parsed date column into the caller object in place, so
the calculation is not free of side effects on its input. -/
theorem C10_counterexample :
    (calculate_ctl_atl_tsb_run [⟨DateVal.raw 4, some 1⟩] 0 0).2 ≠
      [⟨DateVal.raw 4, some 1⟩] := by
  simp [calculate_ctl_atl_tsb_run, callerFrameAfter, DateVal.parse]

/-- C10 (amended): the CP fit is pure (its input is unchanged after the
call), and the daily-load calculation performs exactly one caller-visible
write: it replaces the date column by its parsed form in place, which
preserves the denoted days and all stress values, and is the identity
whenever the dates are already parsed datetimes; the returned value
depends on nothing but the arguments. -/
theorem C10_frame_effects :
    (∀ (df : List Obs) (c a : ℚ),
      ((calculate_ctl_atl_tsb_run df c a).2).map (fun r => (r.date.day, r.TSS)) =
        df.map (fun r => (r.date.day, r.TSS)) ∧
      ((∀ r ∈ df, r.date.isParsed = true) → (calculate_ctl_atl_tsb_run df c a).2 = df)) ∧
    (∀ pf : List (ℚ × ℚ), (fit_cp_w_prime_run pf).2 = pf) := by
  refine ⟨fun df c a => ⟨?_, ?_⟩, fun pf => rfl⟩
  · rw [show (calculate_ctl_atl_tsb_run df c a).2 = callerFrameAfter df from rfl,
      callerFrameAfter, List.map_map]
    refine List.map_congr_left (fun r _ => ?_)
    simp only [Function.comp_apply]
    cases hd : r.date <;> rfl
  · intro hp
    rw [show (calculate_ctl_atl_tsb_run df c a).2 = callerFrameAfter df from rfl,
      callerFrameAfter]
    refine (List.map_congr_left (fun r hr => ?_)).trans (List.map_id df)
    have := hp r hr
    cases hd : r.date with
    | raw d =>
      rw [hd] at this
      cases this
    | dt d =>
      rw [show (DateVal.dt d).parse = DateVal.dt d from rfl, ← hd]
      rfl

/-- C10 witness: a parsed-date frame is unchanged, and the fit leaves
its profile unchanged. -/
theorem C10_frame_effects_witness :
    ((calculate_ctl_atl_tsb_run [⟨DateVal.dt 1, some 2⟩] 0 0).2 =
      [⟨DateVal.dt 1, some 2⟩]) ∧
    ((fit_cp_w_prime_run [((1 : ℚ), (2 : ℚ))]).2 = [(1, 2)]) :=
  ⟨(C10_frame_effects.1 [⟨DateVal.dt 1, some 2⟩] 0 0).2
      (by intro r hr; simp only [List.mem_singleton] at hr; rw [hr]; rfl),
    C10_frame_effects.2 [(1, 2)]⟩

lemma lsum_expand (l : List (ℚ × ℚ)) (f g : ℚ × ℚ → ℚ) (b : ℚ) :
    (l.map (fun p => (g p - b * f p) ^ 2)).sum =
      (l.map (fun p => g p ^ 2)).sum - 2 * b * (l.map (fun p => f p * g p)).sum +
        b ^ 2 * (l.map (fun p => f p ^ 2)).sum := by
  induction l with
  | nil => simp
  | cons x xs ih =>
    simp only [List.map_cons, List.sum_cons, ih]
    ring

lemma sum_sq_nonneg {α : Type} (l : List α) (f : α → ℚ) :
    0 ≤ (l.map (fun p => f p ^ 2)).sum := by
  refine List.sum_nonneg (fun v hv => ?_)
  obtain ⟨x, -, rfl⟩ := List.mem_map.mp hv
  exact sq_nonneg (f x)

lemma sum_sq_eq_zero {α : Type} :
    ∀ (l : List α) (f : α → ℚ), (l.map (fun p => f p ^ 2)).sum = 0 →
      ∀ p ∈ l, f p = 0 := by
  intro l
  induction l with
  | nil => intro f _ p hp; cases hp
  | cons x xs ih =>
    intro f h p hp
    rw [List.map_cons, List.sum_cons] at h
    have h1 : 0 ≤ f x ^ 2 := sq_nonneg (f x)
    have h2 : 0 ≤ (xs.map (fun p => f p ^ 2)).sum := sum_sq_nonneg xs f
    rcases List.mem_cons.mp hp with h0 | h0
    · subst h0
      have : f p ^ 2 = 0 := by linarith
      exact pow_eq_zero_iff (two_ne_zero) |>.mp this
    · exact ih f (by linarith) p h0

lemma foldl_minq_le_init (l : List ℚ) : ∀ acc : ℚ, l.foldl min acc ≤ acc := by
  induction l with
  | nil => intro acc; exact le_refl acc
  | cons x xs ih =>
    intro acc
    exact le_trans (ih (min acc x)) (min_le_left _ _)

lemma foldl_minq_le_mem (l : List ℚ) :
    ∀ (acc x : ℚ), x ∈ l → l.foldl min acc ≤ x := by
  induction l with
  | nil => intro acc x hx; cases hx
  | cons y ys ih =>
    intro acc x hx
    rcases List.mem_cons.mp hx with h | h
    · subst h
      exact le_trans (foldl_minq_le_init ys (min acc x)) (min_le_right _ _)
    · exact ih (min acc y) x h

lemma init_le_foldl_maxq (l : List ℚ) : ∀ acc : ℚ, acc ≤ l.foldl max acc := by
  induction l with
  | nil => intro acc; exact le_refl acc
  | cons x xs ih =>
    intro acc
    exact le_trans (le_max_left _ _) (ih (max acc x))

lemma mem_le_foldl_maxq (l : List ℚ) :
    ∀ (acc x : ℚ), x ∈ l → x ≤ l.foldl max acc := by
  induction l with
  | nil => intro acc x hx; cases hx
  | cons y ys ih =>
    intro acc x hx
    rcases List.mem_cons.mp hx with h | h
    · subst h
      exact le_trans (le_max_right _ _) (init_le_foldl_maxq ys (max acc x))
    · exact ih (max acc y) x h

lemma amin_le (l : List ℚ) (x : ℚ) (hx : x ∈ l) : amin l ≤ x := by
  cases l with
  | nil => cases hx
  | cons y ys =>
    rcases List.mem_cons.mp hx with h | h
    · subst h; exact foldl_minq_le_init ys x
    · exact foldl_minq_le_mem ys y x h

lemma le_amax (l : List ℚ) (x : ℚ) (hx : x ∈ l) : x ≤ amax l := by
  cases l with
  | nil => cases hx
  | cons y ys =>
    rcases List.mem_cons.mp hx with h | h
    · subst h; exact init_le_foldl_maxq ys x
    · exact mem_le_foldl_maxq ys y x h

lemma foldl_minq_cases (l : List ℚ) :
    ∀ acc : ℚ, l.foldl min acc = acc ∨ l.foldl min acc ∈ l := by
  induction l with
  | nil => intro acc; exact Or.inl rfl
  | cons x xs ih =>
    intro acc
    rcases ih (min acc x) with h | h
    · rcases min_choice acc x with hm | hm
      · exact Or.inl (h.trans hm)
      · exact Or.inr (List.mem_cons.mpr (Or.inl (h.trans hm)))
    · exact Or.inr (List.mem_cons_of_mem x h)

lemma foldl_maxq_cases (l : List ℚ) :
    ∀ acc : ℚ, l.foldl max acc = acc ∨ l.foldl max acc ∈ l := by
  induction l with
  | nil => intro acc; exact Or.inl rfl
  | cons x xs ih =>
    intro acc
    rcases ih (max acc x) with h | h
    · rcases max_choice acc x with hm | hm
      · exact Or.inl (h.trans hm)
      · exact Or.inr (List.mem_cons.mpr (Or.inl (h.trans hm)))
    · exact Or.inr (List.mem_cons_of_mem x h)

lemma amin_mem (l : List ℚ) (h : l ≠ []) : amin l ∈ l := by
  cases l with
  | nil => exact absurd rfl h
  | cons y ys =>
    rcases foldl_minq_cases ys y with hc | hc
    · rw [show amin (y :: ys) = ys.foldl min y from rfl, hc]
      exact List.mem_cons_self y ys
    · exact List.mem_cons_of_mem y hc

lemma amax_mem (l : List ℚ) (h : l ≠ []) : amax l ∈ l := by
  cases l with
  | nil => exact absurd rfl h
  | cons y ys =>
    rcases foldl_maxq_cases ys y with hc | hc
    · rw [show amax (y :: ys) = ys.foldl max y from rfl, hc]
      exact List.mem_cons_self y ys
    · exact List.mem_cons_of_mem y hc

lemma two_le_length_of_fst_ne (l : List (ℚ × ℚ))
    (hd : ∃ p ∈ l, ∃ q ∈ l, p.1 ≠ q.1) : 2 ≤ l.length := by
  obtain ⟨p, hp, q, hq, hpq⟩ := hd
  cases l with
  | nil => cases hp
  | cons x xs =>
    cases xs with
    | nil =>
      rw [List.mem_singleton] at hp hq
      exact absurd (hp.trans hq.symm) (fun h => hpq (congrArg Prod.fst h))
    | cons y ys => simp only [List.length_cons]; omega

lemma Sxx_nonneg (pts : List (ℚ × ℚ)) : 0 ≤ Sxx pts :=
  sum_sq_nonneg pts (fun p => p.1 - mean (pts.map Prod.fst))

lemma Syy_nonneg (pts : List (ℚ × ℚ)) : 0 ≤ Syy pts :=
  sum_sq_nonneg pts (fun p => p.2 - mean (pts.map Prod.snd))

lemma Sxx_pos (pts : List (ℚ × ℚ))
    (hd : ∃ p ∈ pts, ∃ q ∈ pts, p.1 ≠ q.1) : 0 < Sxx pts := by
  obtain ⟨p, hp, q, hq, hpq⟩ := hd
  rcases lt_or_eq_of_le (Sxx_nonneg pts) with h | h
  · exact h
  · exfalso
    have hz := sum_sq_eq_zero pts (fun p => p.1 - mean (pts.map Prod.fst)) h.symm
    have h1 : p.1 - mean (pts.map Prod.fst) = 0 := hz p hp
    have h2 : q.1 - mean (pts.map Prod.fst) = 0 := hz q hq
    exact hpq (by linarith)

lemma SSR_expand (pts : List (ℚ × ℚ)) :
    specSSR pts = Syy pts - 2 * specSlope pts * Sxy pts + specSlope pts ^ 2 * Sxx pts := by
  have hcong : pts.map (fun p => (p.2 - (specIntercept pts + specSlope pts * p.1)) ^ 2) =
      pts.map (fun p => ((p.2 - mean (pts.map Prod.snd)) -
        specSlope pts * (p.1 - mean (pts.map Prod.fst))) ^ 2) := by
    refine List.map_congr_left (fun p _ => ?_)
    rw [specIntercept]
    ring
  rw [specSSR, hcong, lsum_expand pts (fun p => p.1 - mean (pts.map Prod.fst))
    (fun p => p.2 - mean (pts.map Prod.snd)) (specSlope pts)]
  rfl

lemma specSSR_nonneg (pts : List (ℚ × ℚ)) : 0 ≤ specSSR pts :=
  sum_sq_nonneg pts (fun p => p.2 - (specIntercept pts + specSlope pts * p.1))

lemma SSR_eq (pts : List (ℚ × ℚ)) (hS : Sxx pts ≠ 0) :
    specSSR pts = Syy pts - Sxy pts ^ 2 / Sxx pts := by
  rw [SSR_expand, specSlope]
  field_simp
  ring

lemma Sxy_sq_le (pts : List (ℚ × ℚ)) (hS : 0 < Sxx pts) :
    Sxy pts ^ 2 ≤ Sxx pts * Syy pts := by
  have h1 := specSSR_nonneg pts
  rw [SSR_eq pts hS.ne'] at h1
  have h2 : Sxy pts ^ 2 / Sxx pts ≤ Syy pts := by linarith
  calc Sxy pts ^ 2 = (Sxy pts ^ 2 / Sxx pts) * Sxx pts := by field_simp
  _ ≤ Syy pts * Sxx pts := mul_le_mul_of_nonneg_right h2 hS.le
  _ = Sxx pts * Syy pts := mul_comm _ _

lemma linregress_spec (pts : List (ℚ × ℚ)) (hd : ∃ p ∈ pts, ∃ q ∈ pts, p.1 ≠ q.1) :
    ∃ r, linregress pts = .ok (some r) ∧
      r.CP = specSlope pts ∧
      r.W_prime = specIntercept pts ∧
      (pts.length = 2 → r.CP_err_sq = 0 ∧ r.W_prime_err_sq = 0) ∧
      (3 ≤ pts.length → r.CP_err_sq = specSlopeErrSq pts ∧
        r.W_prime_err_sq = specInterceptErrSq pts) := by
  obtain ⟨p, hp, q, hq, hpq⟩ := hd
  have hlen : 2 ≤ pts.length := two_le_length_of_fst_ne pts ⟨p, hp, q, hq, hpq⟩
  have hnil : pts ≠ [] := by
    intro h
    rw [h] at hlen
    simp at hlen
  have hemp : ¬ (pts.isEmpty = true) := by
    cases pts with
    | nil => exact absurd rfl hnil
    | cons x xs => simp [List.isEmpty]
  have hguard : ¬ (amax (pts.map Prod.fst) = amin (pts.map Prod.fst) ∧
      1 < pts.length) := by
    rintro ⟨heq, -⟩
    have hp1 : p.1 ∈ pts.map Prod.fst := List.mem_map_of_mem Prod.fst hp
    have hq1 : q.1 ∈ pts.map Prod.fst := List.mem_map_of_mem Prod.fst hq
    have e1 : p.1 ≤ amin (pts.map Prod.fst) := heq ▸ le_amax _ _ hp1
    have e2 : q.1 ≤ amin (pts.map Prod.fst) := heq ▸ le_amax _ _ hq1
    have e3 := amin_le _ _ hp1
    have e4 := amin_le _ _ hq1
    exact hpq (by linarith)
  have hnpos : (0 : ℚ) < (pts.length : ℚ) := by
    have h0 : 0 < pts.length := by omega
    exact_mod_cast h0
  have hSxx := Sxx_pos pts ⟨p, hp, q, hq, hpq⟩
  have hssxm : ¬ (Sxx pts / (pts.length : ℚ) = 0) := (div_pos hSxx hnpos).ne'
  have hslope : Sxy pts / (pts.length : ℚ) / (Sxx pts / (pts.length : ℚ)) =
      specSlope pts := by
    rw [specSlope]
    field_simp
  simp only [linregress, if_neg hemp, if_neg hguard, if_neg hssxm]
  by_cases hl2 : pts.length = 2
  · rw [if_pos hl2]
    refine ⟨_, rfl, hslope, ?_, fun _ => ⟨rfl, rfl⟩, fun h3 => absurd hl2 (by omega)⟩
    show mean (pts.map Prod.snd) -
        Sxy pts / (pts.length : ℚ) / (Sxx pts / (pts.length : ℚ)) *
          mean (pts.map Prod.fst) = specIntercept pts
    rw [hslope, specIntercept]
  · rw [if_neg hl2]
    have h3 : 3 ≤ pts.length := by omega
    have hn2 : ((pts.length : ℚ) - 2) ≠ 0 := by
      have hne2 : ((pts.length : ℚ)) ≠ 2 := by
        exact_mod_cast (by omega : pts.length ≠ 2)
      exact sub_ne_zero.mpr hne2
    refine ⟨_, rfl, hslope, ?_, fun h2 => absurd h2 hl2, fun _ => ⟨?_, ?_⟩⟩
    · show mean (pts.map Prod.snd) -
        Sxy pts / (pts.length : ℚ) / (Sxx pts / (pts.length : ℚ)) *
          mean (pts.map Prod.fst) = specIntercept pts
      rw [hslope, specIntercept]
    · show (1 - (if (Sxx pts / (pts.length : ℚ)) * (Syy pts / (pts.length : ℚ)) = 0
          then 0
          else min ((Sxy pts / (pts.length : ℚ)) ^ 2 /
            ((Sxx pts / (pts.length : ℚ)) * (Syy pts / (pts.length : ℚ)))) 1)) *
          (Syy pts / (pts.length : ℚ)) / (Sxx pts / (pts.length : ℚ)) /
          ((pts.length : ℚ) - 2) = specSlopeErrSq pts
      by_cases hSyy : Syy pts = 0
      · rw [if_pos (by rw [hSyy]; simp)]
        have hdy := sum_sq_eq_zero pts (fun pp => pp.2 - mean (pts.map Prod.snd)) hSyy
        have hSxy : Sxy pts = 0 := by
          rw [Sxy]
          refine List.sum_eq_zero (fun v hv => ?_)
          obtain ⟨pp, hpp, rfl⟩ := List.mem_map.mp hv
          show (pp.1 - mean (pts.map Prod.fst)) * (pp.2 - mean (pts.map Prod.snd)) = 0
          have hz : pp.2 - mean (pts.map Prod.snd) = 0 := hdy pp hpp
          rw [hz, mul_zero]
        rw [specSlopeErrSq, SSR_eq pts hSxx.ne', hSyy, hSxy]
        simp
      · have hSyy0 : 0 < Syy pts := lt_of_le_of_ne (Syy_nonneg pts) (Ne.symm hSyy)
        have hcpos : 0 < (Sxx pts / (pts.length : ℚ)) * (Syy pts / (pts.length : ℚ)) :=
          mul_pos (div_pos hSxx hnpos) (div_pos hSyy0 hnpos)
        rw [if_neg hcpos.ne']
        have hle : (Sxy pts / (pts.length : ℚ)) ^ 2 /
            ((Sxx pts / (pts.length : ℚ)) * (Syy pts / (pts.length : ℚ))) ≤ 1 := by
          rw [div_le_one hcpos, div_pow, div_mul_div_comm,
            show ((pts.length : ℚ)) * (pts.length : ℚ) = ((pts.length : ℚ)) ^ 2 from
              (sq ((pts.length : ℚ))).symm]
          exact (div_le_div_iff_of_pos_right (by positivity)).mpr (Sxy_sq_le pts hSxx)
        rw [min_eq_left hle, specSlopeErrSq, SSR_eq pts hSxx.ne']
        field_simp
        ring
    · show (1 - (if (Sxx pts / (pts.length : ℚ)) * (Syy pts / (pts.length : ℚ)) = 0
          then 0
          else min ((Sxy pts / (pts.length : ℚ)) ^ 2 /
            ((Sxx pts / (pts.length : ℚ)) * (Syy pts / (pts.length : ℚ)))) 1)) *
          (Syy pts / (pts.length : ℚ)) / (Sxx pts / (pts.length : ℚ)) /
          ((pts.length : ℚ) - 2) *
          (Sxx pts / (pts.length : ℚ) + mean (pts.map Prod.fst) ^ 2) =
          specInterceptErrSq pts
      by_cases hSyy : Syy pts = 0
      · rw [if_pos (by rw [hSyy]; simp)]
        have hdy := sum_sq_eq_zero pts (fun pp => pp.2 - mean (pts.map Prod.snd)) hSyy
        have hSxy : Sxy pts = 0 := by
          rw [Sxy]
          refine List.sum_eq_zero (fun v hv => ?_)
          obtain ⟨pp, hpp, rfl⟩ := List.mem_map.mp hv
          show (pp.1 - mean (pts.map Prod.fst)) * (pp.2 - mean (pts.map Prod.snd)) = 0
          have hz : pp.2 - mean (pts.map Prod.snd) = 0 := hdy pp hpp
          rw [hz, mul_zero]
        rw [specInterceptErrSq, SSR_eq pts hSxx.ne', hSyy, hSxy]
        simp
      · have hSyy0 : 0 < Syy pts := lt_of_le_of_ne (Syy_nonneg pts) (Ne.symm hSyy)
        have hcpos : 0 < (Sxx pts / (pts.length : ℚ)) * (Syy pts / (pts.length : ℚ)) :=
          mul_pos (div_pos hSxx hnpos) (div_pos hSyy0 hnpos)
        rw [if_neg hcpos.ne']
        have hle : (Sxy pts / (pts.length : ℚ)) ^ 2 /
            ((Sxx pts / (pts.length : ℚ)) * (Syy pts / (pts.length : ℚ))) ≤ 1 := by
          rw [div_le_one hcpos, div_pow, div_mul_div_comm,
            show ((pts.length : ℚ)) * (pts.length : ℚ) = ((pts.length : ℚ)) ^ 2 from
              (sq ((pts.length : ℚ))).symm]
          exact (div_le_div_iff_of_pos_right (by positivity)).mpr (Sxy_sq_le pts hSxx)
        rw [min_eq_left hle, specInterceptErrSq, SSR_eq pts hSxx.ne']
        field_simp
        ring

lemma isEmpty_false_of_ne_nil {α : Type} (l : List α) (h : l ≠ []) :
    ¬ (l.isEmpty = true) := by
  cases l with
  | nil => exact absurd rfl h
  | cons x xs => simp [List.isEmpty]

/-- C3 counterexample: on the power profile cited by the claim,
`time = [60, 120, 180, 240]`, `power = [300, 250, 233.3, 225]`, the
product `power * time` at 180 s is 41994, not 42000, so the data is not
exactly linear: the fit returns CP = 199.99 exactly (not 200) and a
nonzero slope standard error (its square is 7/10000), refuting the
cited recovery of CP = 200 with zero standard errors. -/
theorem C3_counterexample :
    fit_cp_w_prime [(60, 300), (120, 250), (180, 2333/10), (240, 225)] =
      .ok (some ⟨19999/100, 7/10000, 6000, 189/10⟩) ∧
    (19999/100 : ℚ) ≠ 200 ∧ (7/10000 : ℚ) ≠ 0 := by
  refine ⟨?_, by norm_num, by norm_num⟩
  norm_num [fit_cp_w_prime, linregress, amin, amax, mean, Sxx, Sxy, Syy]

/-- C3 (amended): for every power profile with at least 2 distinct time
values, the fit succeeds and returns the ordinary-least-squares fit of
`y = power * time` against `x = time`: CP is the OLS slope
`(sum (x - xbar) * (y - ybar)) / (sum (x - xbar) ^ 2)`, W_prime is the
OLS intercept, and for profiles of 3 or more points the squared standard
errors equal the usual residual-variance-based formulas with `n - 2`
degrees of freedom; for exactly 2 points scipy returns standard error 0.
On the cited profile the exact result is CP = 199.99, W_prime = 6000,
with nonzero slope standard error, because `233.3 * 180 = 41994` is not
on the line; the intended exactly-linear profile would need
`power(180) = 700/3`. -/
theorem C3_ols_fit (df : List (ℚ × ℚ)) (hd : ∃ p ∈ df, ∃ q ∈ df, p.1 ≠ q.1) :
    ∃ r, fit_cp_w_prime df = .ok (some r) ∧
      r.CP = specSlope (df.map (fun p => (p.1, p.2 * p.1))) ∧
      r.W_prime = specIntercept (df.map (fun p => (p.1, p.2 * p.1))) ∧
      (df.length = 2 → r.CP_err_sq = 0 ∧ r.W_prime_err_sq = 0) ∧
      (3 ≤ df.length →
        r.CP_err_sq = specSlopeErrSq (df.map (fun p => (p.1, p.2 * p.1))) ∧
        r.W_prime_err_sq = specInterceptErrSq (df.map (fun p => (p.1, p.2 * p.1)))) := by
  obtain ⟨p, hp, q, hq, hpq⟩ := hd
  have hlm : (df.map (fun p => (p.1, p.2 * p.1))).length = df.length :=
    List.length_map _ _
  obtain ⟨r, h1, h2, h3, h4, h5⟩ := linregress_spec (df.map (fun p => (p.1, p.2 * p.1)))
    ⟨(p.1, p.2 * p.1), List.mem_map_of_mem _ hp,
     (q.1, q.2 * q.1), List.mem_map_of_mem _ hq, hpq⟩
  exact ⟨r, h1, h2, h3,
    fun h => h4 (by rw [hlm]; exact h),
    fun h => h5 (by rw [hlm]; exact h)⟩

/-- C3 witness: the cited four-point profile has distinct times. -/
theorem C3_ols_fit_witness :
    ∃ r, fit_cp_w_prime [(60, 300), (120, 250), (180, 2333/10), (240, 225)] =
        .ok (some r) ∧
      r.CP = specSlope ([(60, 300), (120, 250), (180, 2333/10), (240, 225)].map
        (fun p => (p.1, p.2 * p.1))) ∧
      r.W_prime = specIntercept ([(60, 300), (120, 250), (180, 2333/10), (240, 225)].map
        (fun p => (p.1, p.2 * p.1))) ∧
      (([(60, 300), (120, 250), (180, 2333/10), (240, 225)] :
          List (ℚ × ℚ)).length = 2 → r.CP_err_sq = 0 ∧ r.W_prime_err_sq = 0) ∧
      (3 ≤ ([(60, 300), (120, 250), (180, 2333/10), (240, 225)] :
          List (ℚ × ℚ)).length →
        r.CP_err_sq = specSlopeErrSq ([(60, 300), (120, 250), (180, 2333/10),
          (240, 225)].map (fun p => (p.1, p.2 * p.1))) ∧
        r.W_prime_err_sq = specInterceptErrSq ([(60, 300), (120, 250), (180, 2333/10),
          (240, 225)].map (fun p => (p.1, p.2 * p.1)))) :=
  C3_ols_fit [(60, 300), (120, 250), (180, 2333/10), (240, 225)]
    ⟨(60, 300), by simp, (120, 250), by simp, by norm_num⟩

/-- C6 counterexample: a profile with two identical time values makes
the fit fail with the scipy `ValueError` for identical x values, which
is neither an `InsufficientDataError` nor a `DegenerateFitError` (no
such classes exist in the source). -/
theorem C6_counterexample :
    fit_cp_w_prime [(60, 300), (60, 250)] = .error PyError.valueErrorIdenticalX ∧
    PyError.valueErrorIdenticalX ≠ PyError.insufficientDataError ∧
    PyError.valueErrorIdenticalX ≠ PyError.degenerateFitError := by
  refine ⟨?_, by decide, by decide⟩
  norm_num [fit_cp_w_prime, linregress, amin, amax]

/-- C6 (amended): the failure modes of the fit are scipy exceptions, not
the named error classes of the specification: a profile of 2 or more
points with all time values identical fails with the identical-x
`ValueError`; the empty profile fails with the empty-input `ValueError`;
a single point raises nothing and returns NaN for all four outputs; and
a profile with at least 2 distinct time values does not fail. -/
theorem C6_fit_failure_modes :
    (∀ df : List (ℚ × ℚ), 2 ≤ df.length → (∀ p ∈ df, ∀ q ∈ df, p.1 = q.1) →
      fit_cp_w_prime df = .error PyError.valueErrorIdenticalX) ∧
    fit_cp_w_prime [] = .error PyError.valueErrorEmptyInputs ∧
    (∀ t pw : ℚ, fit_cp_w_prime [(t, pw)] = .ok none) ∧
    (∀ df : List (ℚ × ℚ), (∃ p ∈ df, ∃ q ∈ df, p.1 ≠ q.1) →
      ∃ r, fit_cp_w_prime df = .ok (some r)) := by
  refine ⟨?_, ?_, ?_, ?_⟩
  · intro df hlen hsame
    have hplen : (df.map (fun p => (p.1, p.2 * p.1))).length = df.length :=
      List.length_map _ _
    have hne : df.map (fun p => (p.1, p.2 * p.1)) ≠ [] := by
      intro h
      have hl := congrArg List.length h
      rw [hplen] at hl
      simp only [List.length_nil] at hl
      omega
    have hxne : (df.map (fun p => (p.1, p.2 * p.1))).map Prod.fst ≠ [] := by
      intro h
      have hl := congrArg List.length h
      rw [List.length_map, hplen] at hl
      simp only [List.length_nil] at hl
      omega
    have hxall : ∀ u ∈ (df.map (fun p => (p.1, p.2 * p.1))).map Prod.fst,
        ∀ v ∈ (df.map (fun p => (p.1, p.2 * p.1))).map Prod.fst, u = v := by
      intro u hu v hv
      obtain ⟨pu, hpu, rfl⟩ := List.mem_map.mp hu
      obtain ⟨pv, hpv, rfl⟩ := List.mem_map.mp hv
      obtain ⟨du, hdu, rfl⟩ := List.mem_map.mp hpu
      obtain ⟨dv, hdv, rfl⟩ := List.mem_map.mp hpv
      exact hsame du hdu dv hdv
    have hmeq : amax ((df.map (fun p => (p.1, p.2 * p.1))).map Prod.fst) =
        amin ((df.map (fun p => (p.1, p.2 * p.1))).map Prod.fst) :=
      hxall _ (amax_mem _ hxne) _ (amin_mem _ hxne)
    show linregress (df.map (fun p => (p.1, p.2 * p.1))) =
      .error PyError.valueErrorIdenticalX
    unfold linregress
    rw [if_neg (isEmpty_false_of_ne_nil _ hne), if_pos ⟨hmeq, by rw [hplen]; omega⟩]
  · rfl
  · intro t pw
    norm_num [fit_cp_w_prime, linregress, amin, amax, mean, Sxx, Sxy, Syy]
  · intro df hd
    obtain ⟨p, hp, q, hq, hpq⟩ := hd
    obtain ⟨r, h1, -, -, -, -⟩ := linregress_spec (df.map (fun p => (p.1, p.2 * p.1)))
      ⟨(p.1, p.2 * p.1), List.mem_map_of_mem _ hp,
       (q.1, q.2 * q.1), List.mem_map_of_mem _ hq, hpq⟩
    exact ⟨r, h1⟩

/-- C6 witness: identical-times failure, empty-input failure,
single-point NaN result, and a successful two-distinct-times fit. -/
theorem C6_fit_failure_modes_witness :
    fit_cp_w_prime [(1, 5), (1, 6)] = .error PyError.valueErrorIdenticalX ∧
    fit_cp_w_prime [] = .error PyError.valueErrorEmptyInputs ∧
    fit_cp_w_prime [(9, 4)] = .ok none ∧
    (∃ r, fit_cp_w_prime [(30, 100), (60, 80)] = .ok (some r)) :=
  ⟨C6_fit_failure_modes.1 [(1, 5), (1, 6)] (by norm_num)
      (by
        intro p hp q hq
        simp only [List.mem_cons, List.not_mem_nil, or_false] at hp hq
        rcases hp with rfl | rfl <;> rcases hq with rfl | rfl <;> rfl),
    C6_fit_failure_modes.2.1,
    C6_fit_failure_modes.2.2.1 9 4,
    C6_fit_failure_modes.2.2.2 [(30, 100), (60, 80)]
      ⟨(30, 100), by simp, (60, 80), by simp, by norm_num⟩⟩
